import Mathlib

/-!
Verification of the RAG document pipeline (`rag_handler.py`, `config.py`).

We shallowly embed the Python code: `chunk_text` (sliding-window chunker with
truthiness-based argument defaulting), `add_document` (chunk → embed → upsert →
extend pipeline) and `get_answer` (query pipeline with structured error
results).  External service calls (OpenAI embeddings / chat completions,
Pinecone upsert / query) are modelled by their outcomes, passed in as
parameters.  The chunker's `while` loop is modelled with explicit fuel, `none`
standing for divergence.
-/

namespace RAG

/-- Python whitespace characters recognised by `str.strip()` (ASCII subset;
the repository's blank-input checks only ever meet these). -/
def pyIsSpace (c : Char) : Bool :=
  c = ' ' || c = '\t' || c = '\n' || c = '\r' || c = '\x0b' || c = '\x0c'

/-- `not text or not text.strip()` in Python: true iff every character is
whitespace (including the empty string). -/
def isBlank (s : String) : Bool :=
  s.toList.all pyIsSpace

/-- Python slice-index normalisation: a negative index counts from the end,
then the result is clamped to `[0, n]`. -/
def pyIdx (n : Nat) (i : Int) : Nat :=
  if i < 0 then ((n : Int) + i).toNat else min i.toNat n

/-- Python `s[a:b]` for integer bounds `a`, `b`. -/
def pySlice (s : String) (a b : Int) : String :=
  let n := s.length
  let lo := pyIdx n a
  let hi := pyIdx n b
  String.mk ((s.toList.drop lo).take (hi - lo))

/-- `x or default` on Python ints: `0` (and `None`) are falsy, so an explicit
zero argument is replaced by the configured default. -/
def orDefault (passed : Option Int) (dflt : Int) : Int :=
  match passed with
  | none => dflt
  | some v => if v = 0 then dflt else v

/-- The `while start < len(text)` loop of `chunk_text`, with fuel; `none`
models non-termination.  Each step appends `text[start : start+size]` and
advances the cursor by `step = size - overlap`. -/
def chunkCore (text : String) (size step : Int) : Nat → Int → Option (List String)
  | 0, _ => none
  | fuel + 1, start =>
    if start < (text.length : Int) then
      match chunkCore text size step fuel (start + step) with
      | none => none
      | some rest => some (pySlice text start (start + size) :: rest)
    else
      some []

/-- `RAGHandler.chunk_text(text, chunk_size, chunk_overlap)`: blank input
returns `[]`; otherwise the passed sizes fall back to the configured ones by
truthiness and the sliding-window loop runs.  Fuel `text.length + 1` is enough
whenever the effective step is positive, so `none` means the Python loop never
terminates. -/
def chunk_text (cfgSize cfgOverlap : Int) (text : String)
    (chunk_size chunk_overlap : Option Int) : Option (List String) :=
  if isBlank text then some []
  else
    let size := orDefault chunk_size cfgSize
    let overlap := orDefault chunk_overlap cfgOverlap
    chunkCore text size (size - overlap) (text.length + 1) 0

/-- Outcome of a call to an external service, mirroring the exception classes
caught in `rag_handler.py`: `conn` is `APIConnectionError`, `api` any other
`APIError`, `other` any remaining exception. -/
inductive ServiceErr
  | conn (msg : String)
  | api (msg : String)
  | other (msg : String)
deriving DecidableEq

/-- The message produced by the corresponding `except` branch of
`get_answer`. -/
def handleErr : ServiceErr → String
  | .conn m => "Failed to connect to OpenAI API: " ++ m
  | .api m => "OpenAI API error: " ++ m
  | .other m => "Error generating answer: " ++ m

/-- A Pinecone vector entry: id, embedding value, and the chunk text stored in
its metadata.  The embedding payload type `α` is abstract. -/
def Entry (α : Type) : Type := String × α × String

/-- The handler's mutable stores: `self.text_chunks_store` and the contents of
the Pinecone index. -/
structure RAGState (α : Type) where
  text_chunks_store : List String
  index : List (Entry α)

/-- Pinecone upsert of a single vector: idempotent keyed by id — an existing
id is overwritten in place, a fresh id is appended. -/
def upsertOne (idx : List (Entry α)) (v : Entry α) : List (Entry α) :=
  if idx.any (fun e => e.1 = v.1) then
    idx.map (fun e => if e.1 = v.1 then v else e)
  else
    idx ++ [v]

/-- Pinecone upsert of a batch of vectors. -/
def upsertList (idx : List (Entry α)) (vs : List (Entry α)) : List (Entry α) :=
  vs.foldl upsertOne idx

/-- The vector id `f"chunk_{n}"` assigned in `add_document`. -/
def mkId (n : Nat) : String :=
  "chunk_" ++ Nat.repr n

/-- The list of vectors prepared for upsert: ids continue from the current
store size, values from the batched embedding response, chunk text as
metadata (`zip` truncates to the shorter list, as in Python). -/
def vectorsToUpsert (storeLen : Nat) (chunks : List String) (embs : List α) :
    List (Entry α) :=
  (List.zip chunks embs).enum.map
    (fun p => (mkId (storeLen + p.1), p.2.2, p.2.1))

/-- Recursive characterisation of `vectorsToUpsert` (proved equal below),
convenient for induction. -/
def vectorsRec (n : Nat) : List String → List α → List (Entry α)
  | [], _ => []
  | _ :: _, [] => []
  | c :: cs, b :: bs => (mkId n, b, c) :: vectorsRec (n + 1) cs bs

/-- `RAGHandler.add_document(text)`.  `embed` is the batched OpenAI embeddings
call; `upsertRes` the outcome of the Pinecone upsert.  Returns `none` when
`chunk_text` diverges; otherwise the raised error or the chunk count, paired
with the post-call state (mutations happen in source order: upsert to the
index, then extend the local store). -/
def add_document (cfgSize cfgOverlap : Int)
    (embed : List String → Except ServiceErr (List α))
    (upsertRes : Except ServiceErr Unit)
    (st : RAGState α) (text : String) :
    Option (Except ServiceErr Nat × RAGState α) :=
  match chunk_text cfgSize cfgOverlap text none none with
  | none => none
  | some new_chunks =>
    if new_chunks.isEmpty then some (Except.ok 0, st)
    else
      match embed new_chunks with
      | Except.error e => some (Except.error e, st)
      | Except.ok embeddings =>
        let vs := vectorsToUpsert st.text_chunks_store.length new_chunks embeddings
        match upsertRes with
        | Except.error e => some (Except.error e, st)
        | Except.ok _ =>
          some (Except.ok new_chunks.length,
            { text_chunks_store := st.text_chunks_store ++ new_chunks,
              index := upsertList st.index vs })

/-- One content part of the user message sent to the chat completion: either
the text prompt or an attached image data URL. -/
inductive ContentPart
  | text (s : String)
  | image_url (url : String)
deriving DecidableEq

/-- The f-string user prompt built in `get_answer` around the joined
context and the question. -/
def userText (context question : String) : String :=
  "Based on the following context from documents, please answer the question.\n\nContext:\n---\n"
    ++ context ++ "\n---\n\nQuestion: " ++ question

/-- The user-message content list: the text part, plus the image part when
both `image_b64` and `image_mime_type` are truthy (non-`None`, non-empty). -/
def buildContent (context question : String) (image_b64 image_mime_type : Option String) :
    List ContentPart :=
  let base := [ContentPart.text (userText context question)]
  match image_b64, image_mime_type with
  | some b, some m =>
    if b ≠ "" ∧ m ≠ "" then
      base ++ [ContentPart.image_url ("data:" ++ m ++ ";base64," ++ b)]
    else base
  | _, _ => base

/-- The structured dictionary `get_answer` returns: either
`{question, answer, context_chunks}` or `{error}`. -/
inductive QAResult
  | ok (question answer : String) (context_chunks : List String)
  | err (msg : String)
deriving DecidableEq

/-- `RAGHandler.get_answer(question, image_b64, image_mime_type)`.  External
outcomes are parameters: `embedQ` the question-embedding call, `search` the
Pinecone query (each match's `metadata["text"]` when present, `none` for a
match without text metadata), `completion` the chat call on the composed
content.  Every failure is caught and converted to `QAResult.err`. -/
def get_answer (st : RAGState α) (question : String)
    (image_b64 image_mime_type : Option String)
    (embedQ : Except ServiceErr Unit)
    (search : Except ServiceErr (List (Option String)))
    (completion : List ContentPart → Except ServiceErr String) : QAResult :=
  if st.text_chunks_store.length = 0 then
    QAResult.err "No documents processed yet. Please upload a document first."
  else
    match embedQ with
    | Except.error e => QAResult.err (handleErr e)
    | Except.ok _ =>
      match search with
      | Except.error e => QAResult.err (handleErr e)
      | Except.ok found =>
        let relevant_chunks := found.filterMap id
        if relevant_chunks.isEmpty then
          QAResult.err "No relevant information found in documents"
        else
          let context := String.intercalate "\n\n---\n\n" relevant_chunks
          match completion (buildContent context question image_b64 image_mime_type) with
          | Except.error e => QAResult.err (handleErr e)
          | Except.ok answer => QAResult.ok question answer relevant_chunks

/-- Modelled from the spec: the managed similarity index (the Pinecone query
itself executes outside this repository).  "query(vector, k) → ranked list of
(id, score), length ≤ min(k, total_count)": the service ranks all stored
entries by similarity and returns the top `min(k, count)` of them, each
carrying its chunk text as attached metadata.  `ranked` is the service's
similarity ordering — some permutation of the index contents. -/
def indexQuery (ranked : List (Entry α)) (k : Nat) : List (Option String) :=
  (ranked.take k).map (fun e => some e.2.2)

/-- A concrete text of length 2400, for Scenario A of the spec. -/
def text2400 : String := String.mk (List.replicate 2400 'a')

/-- The states reachable from an empty handler by a sequence of *successful*
`add_document` calls, recording the returned chunk counts.  Each step may use
any embedding outcome satisfying the embedder contract (the response has one
vector per input text) and any upsert outcome. -/
inductive Reaches (cfgSize cfgOverlap : Int) : RAGState α → List Nat → Prop
  | init : Reaches cfgSize cfgOverlap ⟨[], []⟩ []
  | step {st : RAGState α} {counts : List Nat}
      (embed : List String → Except ServiceErr (List α))
      (upsertRes : Except ServiceErr Unit) (text : String)
      {k : Nat} {st' : RAGState α}
      (prev : Reaches cfgSize cfgOverlap st counts)
      (hembed : ∀ ts vs, embed ts = Except.ok vs → vs.length = ts.length)
      (hadd : add_document cfgSize cfgOverlap embed upsertRes st text
        = some (Except.ok k, st'))
      : Reaches cfgSize cfgOverlap st' (counts ++ [k])

/-- Substring containment (Python `in` on strings). -/
def containsStr (big small : String) : Prop :=
  ∃ a b, big = a ++ small ++ b

/-! ### Decimal rendering is injective

`mkId` embeds the store position into the vector id string via `Nat.repr`;
the invariant proofs need distinct positions to give distinct ids. -/

/-- Inverse of `Nat.digitChar` on decimal digits. -/
def decDigit (c : Char) : Nat :=
  if c = '0' then 0 else
  if c = '1' then 1 else
  if c = '2' then 2 else
  if c = '3' then 3 else
  if c = '4' then 4 else
  if c = '5' then 5 else
  if c = '6' then 6 else
  if c = '7' then 7 else
  if c = '8' then 8 else
  if c = '9' then 9 else 0

/-- Value of a most-significant-first decimal digit list, continuing from
accumulator `a`. -/
def valFrom (a : Nat) : List Char → Nat
  | [] => a
  | c :: cs => valFrom (a * 10 + decDigit c) cs

theorem decDigit_digitChar (d : Nat) (hd : d < 10) :
    decDigit (Nat.digitChar d) = d := by
  interval_cases d <;> rfl

theorem valFrom_toDigitsCore :
    ∀ (fuel n a : Nat) (ds : List Char), n < fuel →
      ∃ m, valFrom a (Nat.toDigitsCore 10 fuel n ds) = valFrom m ds ∧
        (a = 0 → m = n) := by
  intro fuel
  induction fuel with
  | zero => intro n a ds h; omega
  | succ f ih =>
    intro n a ds h
    simp only [Nat.toDigitsCore]
    by_cases h10 : n / 10 = 0
    · simp only [h10, if_pos rfl]
      refine ⟨a * 10 + n % 10, ?_, ?_⟩
      · simp [valFrom, decDigit_digitChar (n % 10) (Nat.mod_lt _ (by norm_num))]
      · intro ha; subst ha; omega
    · simp only [if_neg h10]
      have hlt : n / 10 < f := by omega
      obtain ⟨m', hm', hm'0⟩ := ih (n / 10) a (Nat.digitChar (n % 10) :: ds) hlt
      refine ⟨m' * 10 + n % 10, ?_, ?_⟩
      · rw [hm']
        simp [valFrom, decDigit_digitChar (n % 10) (Nat.mod_lt _ (by norm_num))]
      · intro ha
        have := hm'0 ha
        omega

theorem valFrom_toDigits (n : Nat) : valFrom 0 (Nat.toDigits 10 n) = n := by
  obtain ⟨m, hm, hm0⟩ :=
    valFrom_toDigitsCore (n + 1) n 0 [] (Nat.lt_succ_self n)
  simpa [Nat.toDigits, valFrom, hm0 rfl] using hm

theorem repr_inj {m n : Nat} (h : Nat.repr m = Nat.repr n) : m = n := by
  have hl : Nat.toDigits 10 m = Nat.toDigits 10 n := by
    have := congrArg String.toList h
    simpa [Nat.repr, List.toList_asString] using this
  have := congrArg (valFrom 0) hl
  simpa [valFrom_toDigits] using this

theorem mkId_inj {m n : Nat} (h : mkId m = mkId n) : m = n := by
  apply repr_inj
  have hdata : ("chunk_").data ++ (Nat.repr m).data
      = ("chunk_").data ++ (Nat.repr n).data := congrArg String.data h
  have := List.append_cancel_left hdata
  exact String.toList_inj.mp this

/-! ### Chunker lemmas -/

theorem pySlice_coe (s : String) (a b : Nat) :
    pySlice s (a : Int) (b : Int) = String.mk ((s.toList.drop a).take (b - a)) := by
  unfold pySlice pyIdx
  have ha : ¬ ((a : Int) < 0) := not_lt.mpr (Int.natCast_nonneg a)
  have hb : ¬ ((b : Int) < 0) := not_lt.mpr (Int.natCast_nonneg b)
  simp only [if_neg ha, if_neg hb, Int.toNat_natCast]
  have hlen : s.toList.length = s.length := rfl
  rcases le_or_lt a s.length with hc | hc
  · rw [min_eq_left hc]
    congr 1
    apply List.take_eq_take.mpr
    simp only [List.length_drop, hlen]
    omega
  · rw [min_eq_right (le_of_lt hc)]
    have h1 : s.toList.drop s.length = [] := by
      apply List.drop_eq_nil_of_le; omega
    have h2 : s.toList.drop a = [] := by
      apply List.drop_eq_nil_of_le; omega
    rw [h1, h2]
    simp

theorem pySlice_length (s : String) (a b : Nat) :
    (pySlice s (a : Int) (b : Int)).length = min b s.length - min a s.length := by
  unfold pySlice pyIdx
  have ha : ¬ ((a : Int) < 0) := not_lt.mpr (Int.natCast_nonneg a)
  have hb : ¬ ((b : Int) < 0) := not_lt.mpr (Int.natCast_nonneg b)
  simp only [if_neg ha, if_neg hb, Int.toNat_natCast]
  have hlen : s.toList.length = s.length := rfl
  show ((s.toList.drop (min a s.length)).take (min b s.length - min a s.length)).length = _
  rw [List.length_take, List.length_drop, hlen]
  omega

theorem chunkCore_closed (text : String) (size step : Nat) (hstep : 0 < step) :
    ∀ (f s : Nat), text.length ≤ s + f →
      ∃ N, chunkCore text (size : Int) (step : Int) (f + 1) (s : Int)
          = some ((List.range N).map
              (fun i => pySlice text ((s + i * step : Nat) : Int)
                ((s + i * step + size : Nat) : Int)))
        ∧ ∀ i, i < N ↔ s + i * step < text.length := by
  intro f
  induction f with
  | zero =>
    intro s hs
    refine ⟨0, ?_, fun i => ⟨fun h => absurd h (by omega), fun h => by omega⟩⟩
    have hc : ¬ ((s : Int) < (text.length : Int)) := by exact_mod_cast not_lt.mpr hs
    simp [chunkCore, hc]
  | succ f ih =>
    intro s hs
    by_cases hlt : s < text.length
    · obtain ⟨N, hN, hiff⟩ := ih (s + step) (by omega)
      refine ⟨N + 1, ?_, ?_⟩
      · have hcond : ((s : Int) < (text.length : Int)) := by exact_mod_cast hlt
        have hcast : ((s + step : Nat) : Int) = (s : Int) + (step : Int) := by push_cast; ring
        rw [hcast] at hN
        show (if (s : Int) < (text.length : Int) then
            match chunkCore text (size : Int) (step : Int) (f + 1) ((s : Int) + (step : Int)) with
            | none => none
            | some rest => some (pySlice text (s : Int) ((s : Int) + (size : Int)) :: rest)
          else some []) = _
        rw [if_pos hcond, hN]
        have hsz : (s : Int) + (size : Int) = ((s + size : Nat) : Int) := by push_cast; ring
        rw [hsz]
        refine congrArg some ?_
        have hsplit : (List.range (N + 1)).map
            (fun i => pySlice text ((s + i * step : Nat) : Int)
              ((s + i * step + size : Nat) : Int))
            = pySlice text ((s + 0 * step : Nat) : Int) ((s + 0 * step + size : Nat) : Int)
              :: (List.range N).map
                (fun i => pySlice text ((s + (i + 1) * step : Nat) : Int)
                  ((s + (i + 1) * step + size : Nat) : Int)) := by
          rw [List.range_succ_eq_map, List.map_cons, List.map_map]
          rfl
        rw [hsplit]
        refine congrArg₂ List.cons ?_ ?_
        · have h0 : s + 0 * step = s := by ring
          rw [h0]
        · refine List.map_congr_left (fun i _ => ?_)
          have h1 : s + step + i * step = s + (i + 1) * step := by ring
          rw [h1]
      · intro i
        cases i with
        | zero => simpa using hlt
        | succ j =>
          have h2 := hiff j
          rw [Nat.succ_mul]
          omega
    · refine ⟨0, ?_, fun i => ⟨fun h => absurd h (by omega), fun h => by omega⟩⟩
      have hc : ¬ ((s : Int) < (text.length : Int)) := by exact_mod_cast hlt
      simp [chunkCore, hc]

/-- Closed form of `chunk_text` on non-blank input and a valid effective
configuration (no explicit sizes passed, as `add_document` calls it). -/
theorem chunk_text_closed (text : String) (size overlap : Nat)
    (hsz : 0 < size) (hov : overlap < size) (hnb : isBlank text = false) :
    ∃ N, chunk_text (size : Int) (overlap : Int) text none none
        = some ((List.range N).map
            (fun i => pySlice text ((i * (size - overlap) : Nat) : Int)
              ((i * (size - overlap) + size : Nat) : Int)))
      ∧ ∀ i, i < N ↔ i * (size - overlap) < text.length := by
  have hstep : 0 < size - overlap := by omega
  obtain ⟨N, hN, hiff⟩ := chunkCore_closed text size (size - overlap) hstep text.length 0
    (by omega)
  refine ⟨N, ?_, by simpa using hiff⟩
  unfold chunk_text
  rw [hnb]
  simp only [Bool.false_eq_true, if_false, orDefault]
  have hcast : (size : Int) - (overlap : Int) = ((size - overlap : Nat) : Int) := by
    push_cast [Nat.cast_sub (le_of_lt hov)]; ring
  rw [hcast]
  show chunkCore text (size : Int) ((size - overlap : Nat) : Int) (text.length + 1)
      ((0 : Nat) : Int) = _
  rw [hN]
  congr 1
  apply List.map_congr_left
  intro i _
  congr 2 <;> omega

/-! ### Claims about the chunker -/

/-- Claim C2 (settled as a code bug): `chunk_text` performs no precondition
validation at all.  With an explicitly passed `chunk_size=1, chunk_overlap=1`
(overlap = size, forbidden by the spec) on the two-character text `"ab"` the
cursor advances by `1 - 1 = 0` and the `while` loop never terminates — for
every fuel bound the loop is still running — instead of failing with
`ConfigError` as the spec requires. -/
theorem c2_overlap_eq_size_diverges :
    (∀ fuel, chunkCore "ab" 1 0 fuel 0 = none)
    ∧ ∀ cfgSize cfgOverlap : Int,
        chunk_text cfgSize cfgOverlap "ab" (some 1) (some 1) = none := by
  have hpart1 : ∀ fuel, chunkCore "ab" 1 0 fuel 0 = none := by
    intro fuel
    induction fuel with
    | zero => rfl
    | succ f ih =>
      show (if (0 : Int) < (("ab" : String).length : Int) then
          match chunkCore "ab" 1 0 f (0 + 0) with
          | none => none
          | some rest => some (pySlice "ab" 0 (0 + 1) :: rest)
        else some []) = none
      rw [if_pos (by decide)]
      have h0 : (0 : Int) + 0 = 0 := by norm_num
      rw [h0, ih]
  refine ⟨hpart1, fun cfgSize cfgOverlap => ?_⟩
  show chunk_text cfgSize cfgOverlap "ab" (some 1) (some 1) = none
  unfold chunk_text
  rw [show isBlank "ab" = false from rfl]
  simp only [Bool.false_eq_true, if_false, orDefault]
  norm_num
  exact hpart1 (("ab" : String).length + 1)

/-- Counterexample to claim C3 as stated: on the whitespace-only text `" "`
(with the valid default configuration `size=1000, overlap=200`) `chunk_text`
returns the empty sequence, so its character `' '` appears in no chunk —
the coverage guarantee cannot extend to blank input. -/
theorem c3_counterexample :
    chunk_text 1000 200 " " none none = some []
    ∧ (" " : String).toList.get? 0 = some ' '
    ∧ ¬ ∃ c ∈ ([] : List String), ' ' ∈ c.toList := by
  refine ⟨by rfl, by rfl, ?_⟩
  rintro ⟨c, hc, -⟩
  exact absurd hc (List.not_mem_nil c)

/-- Claim C3 (amended): for a valid configuration, blank input yields the
empty chunk sequence, and every character of a *non-blank* input appears in
at least one returned chunk. -/
theorem c3_chunk_coverage (text : String) (size overlap : Nat)
    (hsz : 0 < size) (hov : overlap < size) :
    (isBlank text = true →
      chunk_text (size : Int) (overlap : Int) text none none = some [])
    ∧ (isBlank text = false →
        ∀ L, chunk_text (size : Int) (overlap : Int) text none none = some L →
          ∀ i ch, text.toList.get? i = some ch → ∃ c ∈ L, ch ∈ c.toList) := by
  constructor
  · intro hb
    unfold chunk_text
    rw [hb]
    simp
  · intro hnb L hL i ch hch
    obtain ⟨N, hN, hiff⟩ := chunk_text_closed text size overlap hsz hov hnb
    rw [hL] at hN
    have hLM := Option.some.inj hN
    have hi : i < text.length := by
      have h1 : i < text.toList.length := (List.get?_eq_some.mp hch).1
      simpa using h1
    have hstep : 0 < size - overlap := by omega
    have hdm := Nat.div_add_mod i (size - overlap)
    have hmod := Nat.mod_lt i hstep
    have hcomm : (i / (size - overlap)) * (size - overlap)
        = (size - overlap) * (i / (size - overlap)) := Nat.mul_comm _ _
    have hj1 : (i / (size - overlap)) * (size - overlap) ≤ i := by omega
    have hj2 : i < (i / (size - overlap)) * (size - overlap) + size := by omega
    have hjN : i / (size - overlap) < N :=
      (hiff (i / (size - overlap))).mpr (by omega)
    refine ⟨pySlice text ((i / (size - overlap) * (size - overlap) : Nat) : Int)
        ((i / (size - overlap) * (size - overlap) + size : Nat) : Int), ?_, ?_⟩
    · rw [hLM]
      exact List.mem_map_of_mem _ (List.mem_range.mpr hjN)
    · rw [pySlice_coe]
      show ch ∈ (text.toList.drop (i / (size - overlap) * (size - overlap))).take
        (i / (size - overlap) * (size - overlap) + size
          - i / (size - overlap) * (size - overlap))
      have htk : i / (size - overlap) * (size - overlap) + size
          - i / (size - overlap) * (size - overlap) = size := by omega
      rw [htk]
      apply List.get?_mem (n := i - i / (size - overlap) * (size - overlap))
      rw [List.get?_take (by omega), List.get?_drop]
      have harg : i / (size - overlap) * (size - overlap)
          + (i - i / (size - overlap) * (size - overlap)) = i := by omega
      rw [harg]
      exact hch

theorem text2400_length : text2400.length = 2400 := by
  show (List.replicate 2400 'a').length = 2400
  rw [List.length_replicate]

theorem text2400_not_blank : isBlank text2400 = false := by
  apply Bool.eq_false_iff.mpr
  intro h
  have hall := List.all_eq_true.mp h 'a'
    (show 'a' ∈ text2400.toList from List.mem_replicate.mpr ⟨by norm_num, rfl⟩)
  simp [pyIsSpace] at hall

/-- Scenario A evaluated on the code: the three windows actually returned. -/
theorem c4_concrete_windows :
    chunk_text 1000 200 text2400 none none
      = some [pySlice text2400 0 1000, pySlice text2400 800 1800,
          pySlice text2400 1600 2600] := by
  obtain ⟨N, hN, hiff⟩ :=
    chunk_text_closed text2400 1000 200 (by norm_num) (by norm_num) text2400_not_blank
  have h2 : 2 < N := (hiff 2).mpr (by rw [text2400_length]; norm_num)
  have h3 : ¬ 3 < N := fun hc => by
    have := (hiff 3).mp hc
    rw [text2400_length] at this
    norm_num at this
  have hN3 : N = 3 := by omega
  subst hN3
  have hr3 : List.range 3 = [0, 1, 2] := rfl
  rw [hr3] at hN
  simp only [List.map_cons, List.map_nil] at hN
  norm_num at hN
  convert hN using 3 <;> norm_num

/-- Counterexample to claim C4 as stated: for the length-2400 text with
`size=1000, overlap=200` the third window is `text[1600:2600]`, which the
2400-character text clips to length **800**, not 400 as Scenario A of the spec
asserts (the offsets 0, 800, 1600 and the chunk count 3 are as claimed). -/
theorem c4_counterexample :
    chunk_text 1000 200 text2400 none none
      = some [pySlice text2400 0 1000, pySlice text2400 800 1800,
          pySlice text2400 1600 2600]
    ∧ text2400.length = 2400
    ∧ (pySlice text2400 1600 2600).length = 800
    ∧ (800 : Nat) ≠ 400 := by
  refine ⟨c4_concrete_windows, text2400_length, ?_, by norm_num⟩
  have l3 := pySlice_length text2400 1600 2600
  rw [text2400_length] at l3
  norm_num at l3
  exact l3

/-- Claim C4 (amended): on non-blank text with a valid effective
`(size, overlap)`, `chunk_text` returns exactly the windows
`text[i*(size-overlap) : i*(size-overlap)+size]` for `i = 0, 1, ...` while
`i*(size-overlap) < len(text)`; concretely, a text of length 2400 with
`size=1000, overlap=200` gives the three windows at offsets 0, 800, 1600
with lengths 1000, 1000, 800 (Scenario A of the spec misstates the last
length as 400). -/
theorem c4_windows (text : String) (size overlap : Nat) (hsz : 0 < size)
    (hov : overlap < size) (hnb : isBlank text = false) :
    (∃ N, chunk_text (size : Int) (overlap : Int) text none none
        = some ((List.range N).map
            (fun i => pySlice text ((i * (size - overlap) : Nat) : Int)
              ((i * (size - overlap) + size : Nat) : Int)))
      ∧ ∀ i, i < N ↔ i * (size - overlap) < text.length)
    ∧ chunk_text 1000 200 text2400 none none
        = some [pySlice text2400 0 1000, pySlice text2400 800 1800,
            pySlice text2400 1600 2600]
    ∧ [(pySlice text2400 0 1000).length, (pySlice text2400 800 1800).length,
        (pySlice text2400 1600 2600).length] = [1000, 1000, 800] := by
  refine ⟨chunk_text_closed text size overlap hsz hov hnb, c4_concrete_windows, ?_⟩
  have l1 := pySlice_length text2400 0 1000
  have l2 := pySlice_length text2400 800 1800
  have l3 := pySlice_length text2400 1600 2600
  rw [text2400_length] at l1 l2 l3
  norm_num at l1 l2 l3
  norm_num [l1, l2, l3]

/-- Claim C10: because the argument fallback uses Python truthiness (`or`)
rather than an `is None` check, an explicitly passed `chunk_size=0` or
`chunk_overlap=0` is silently replaced by the configured default; hence
whenever the configured overlap is non-zero, no caller-supplied argument can
make the effective overlap zero. -/
theorem c10_truthiness_default (cfgSize cfgOverlap : Int) :
    (∀ (text : String) (p : Option Int),
        chunk_text cfgSize cfgOverlap text (some 0) p
          = chunk_text cfgSize cfgOverlap text none p)
    ∧ (∀ (text : String) (p : Option Int),
        chunk_text cfgSize cfgOverlap text p (some 0)
          = chunk_text cfgSize cfgOverlap text p none)
    ∧ (cfgOverlap ≠ 0 → ∀ p : Option Int, orDefault p cfgOverlap ≠ 0) := by
  refine ⟨fun text p => ?_, fun text p => ?_, fun h p => ?_⟩
  · unfold chunk_text
    cases hb : isBlank text <;> simp [hb, orDefault]
  · unfold chunk_text
    cases hb : isBlank text <;> simp [hb, orDefault]
  · match p with
    | none => simpa [orDefault] using h
    | some v =>
      by_cases hv : v = 0 <;> simp [orDefault, hv, h]

/-! ### Claims about the add-document pipeline -/

/-- Non-blank input yields a non-empty chunk list (the first window always
exists). -/
theorem chunk_text_ne_nil (text : String) (size overlap : Nat)
    (hsz : 0 < size) (hov : overlap < size) (hnb : isBlank text = false) :
    ∀ L, chunk_text (size : Int) (overlap : Int) text none none = some L →
      L ≠ [] := by
  intro L hL
  obtain ⟨N, hN, hiff⟩ := chunk_text_closed text size overlap hsz hov hnb
  rw [hL] at hN
  have hLM := Option.some.inj hN
  have hlen : 0 < text.length := by
    rcases Nat.eq_zero_or_pos text.length with h0 | h
    · exfalso
      have hnil : text.toList = [] := by
        have : text.toList.length = 0 := by simpa using h0
        exact List.length_eq_zero.mp this
      have : isBlank text = true := by
        unfold isBlank
        rw [hnil]
        rfl
      rw [this] at hnb
      cases hnb
    · exact h
  have h0N : 0 < N := (hiff 0).mpr (by simpa using hlen)
  intro hnil
  rw [hnil] at hLM
  have := congrArg List.length hLM
  simp at this
  omega

/-- Claim C5: on non-blank input with a valid configuration, if the batched
embedding call fails, `add_document` propagates the error as a hard failure
and leaves both `text_chunks_store` and the vector index exactly as they
were — an atomic no-op with no partial success. -/
theorem c5_embed_failure_atomic {α : Type} (size overlap : Nat)
    (embed : List String → Except ServiceErr (List α))
    (upsertRes : Except ServiceErr Unit) (st : RAGState α)
    (text : String) (e : ServiceErr)
    (hsz : 0 < size) (hov : overlap < size) (hnb : isBlank text = false)
    (hfail : ∀ cs, embed cs = Except.error e) :
    add_document (size : Int) (overlap : Int) embed upsertRes st text
      = some (Except.error e, st) := by
  unfold add_document
  rcases hct : chunk_text (size : Int) (overlap : Int) text none none with _ | L
  · exfalso
    obtain ⟨N, hN, -⟩ := chunk_text_closed text size overlap hsz hov hnb
    rw [hct] at hN
    cases hN
  · have hne : L ≠ [] := chunk_text_ne_nil text size overlap hsz hov hnb L hct
    have hemp : L.isEmpty = false := by
      cases L with
      | nil => exact absurd rfl hne
      | cons a l => rfl
    simp only [hemp, Bool.false_eq_true, if_false, hfail L]

/-- Claim C6: blank (empty or whitespace-only) input makes `add_document`
return `0` and leave both stores untouched, for any behaviour of the
embedding service and the index upsert (neither is consulted); no error is
raised. -/
theorem c6_blank_input_noop {α : Type} (cfgSize cfgOverlap : Int)
    (embed : List String → Except ServiceErr (List α))
    (upsertRes : Except ServiceErr Unit) (st : RAGState α)
    (text : String) (hb : isBlank text = true) :
    add_document cfgSize cfgOverlap embed upsertRes st text
      = some (Except.ok 0, st) := by
  unfold add_document chunk_text
  rw [hb]
  simp

/-! ### The store/index consistency invariant (claim C1) -/

theorem vectorsToUpsert_eq (cs : List String) (bs : List α) (n : Nat) :
    vectorsToUpsert n cs bs = vectorsRec n cs bs := by
  have aux : ∀ (cs : List String) (bs : List α) (m n : Nat),
      ((List.zip cs bs).enumFrom m).map (fun p => (mkId (n + p.1), p.2.2, p.2.1))
        = vectorsRec (n + m) cs bs := by
    intro cs
    induction cs with
    | nil => intro bs m n; rfl
    | cons c cs ih =>
      intro bs m n
      cases bs with
      | nil => rfl
      | cons b bs =>
        show (((c, b) :: List.zip cs bs).enumFrom m).map
            (fun p => (mkId (n + p.1), p.2.2, p.2.1))
          = (mkId (n + m), b, c) :: vectorsRec (n + m + 1) cs bs
        rw [List.enumFrom_cons, List.map_cons]
        have := ih bs (m + 1) n
        rw [show n + (m + 1) = n + m + 1 by omega] at this
        rw [this]
  have := aux cs bs 0 n
  rw [Nat.add_zero] at this
  exact this

theorem vectorsRec_idtext (cs : List String) :
    ∀ (bs : List α) (n : Nat), bs.length = cs.length →
      (vectorsRec n cs bs).map (fun e => (e.1, e.2.2))
        = (cs.enumFrom n).map (fun p => (mkId p.1, p.2)) := by
  induction cs with
  | nil => intro bs n _; cases bs <;> rfl
  | cons c cs ih =>
    intro bs n hlen
    cases bs with
    | nil => simp at hlen
    | cons b bs =>
      show (mkId n, c) :: (vectorsRec (n + 1) cs bs).map (fun e => (e.1, e.2.2))
        = (mkId n, c) :: (cs.enumFrom (n + 1)).map (fun p => (mkId p.1, p.2))
      rw [ih bs (n + 1) (by simpa using hlen)]

theorem vectorsRec_ids (cs : List String) :
    ∀ (bs : List α) (n : Nat), bs.length = cs.length →
      (vectorsRec n cs bs).map (fun e => e.1) = (List.range' n cs.length).map mkId := by
  induction cs with
  | nil => intro bs n _; cases bs <;> rfl
  | cons c cs ih =>
    intro bs n hlen
    cases bs with
    | nil => simp at hlen
    | cons b bs =>
      show mkId n :: (vectorsRec (n + 1) cs bs).map (fun e => e.1)
        = mkId n :: (List.range' (n + 1) cs.length).map mkId
      rw [ih bs (n + 1) (by simpa using hlen)]

theorem vectorsRec_length (cs : List String) :
    ∀ (bs : List α) (n : Nat), bs.length = cs.length →
      (vectorsRec n cs bs).length = cs.length := by
  induction cs with
  | nil => intro bs n _; cases bs <;> rfl
  | cons c cs ih =>
    intro bs n hlen
    cases bs with
    | nil => simp at hlen
    | cons b bs =>
      show (vectorsRec (n + 1) cs bs).length + 1 = cs.length + 1
      rw [ih bs (n + 1) (by simpa using hlen)]

theorem mkId_injective : Function.Injective mkId := fun _ _ h => mkId_inj h

/-- Upserting a batch of vectors whose ids are fresh (absent from the index
and pairwise distinct) appends them in order. -/
theorem upsertList_fresh :
    ∀ (vs idx : List (Entry α)),
      (∀ v ∈ vs, ∀ e ∈ idx, e.1 ≠ v.1) → (vs.map (fun v => v.1)).Nodup →
      upsertList idx vs = idx ++ vs := by
  intro vs
  induction vs with
  | nil => intro idx _ _; simp [upsertList]
  | cons v vs ih =>
    intro idx hfresh hnd
    have hany : idx.any (fun e => e.1 = v.1) = false := by
      rw [List.any_eq_false]
      intro e he
      simp only [decide_eq_true_eq]
      exact hfresh v (by simp) e he
    have hone : upsertOne idx v = idx ++ [v] := by
      unfold upsertOne
      rw [hany]
      simp
    show upsertList (upsertOne idx v) vs = idx ++ v :: vs
    rw [hone]
    have hnd' : (∀ x ∈ vs, ¬ x.1 = v.1) ∧ (vs.map (fun v => v.1)).Nodup := by
      simpa using hnd
    rw [ih (idx ++ [v]) ?_ hnd'.2]
    · simp
    · intro u hu e he
      rcases List.mem_append.mp he with h | h
      · exact hfresh u (List.mem_cons_of_mem v hu) e h
      · rcases List.mem_singleton.mp h with rfl
        intro hc
        exact hnd'.1 u hu hc.symm

/-- Claim C1: starting from an empty handler, after every sequence of
successful `add_document` calls the vector index and `text_chunks_store`
have the same number of entries, both equal to the sum of the returned chunk
counts, and the index is exactly the store enumerated in order: entry `n`
carries id `chunk_n` and the chunk text stored at position `n` — ids dense
from 0 and strictly increasing. -/
theorem c1_store_index_consistency {α : Type} {cfgSize cfgOverlap : Int}
    {st : RAGState α} {counts : List Nat}
    (h : Reaches cfgSize cfgOverlap st counts) :
    st.index.map (fun e => (e.1, e.2.2))
        = st.text_chunks_store.enum.map (fun p => (mkId p.1, p.2))
    ∧ st.index.length = st.text_chunks_store.length
    ∧ st.text_chunks_store.length = counts.sum := by
  induction h with
  | init => simp
  | step embed upsertRes text prev hembed hadd ih =>
    obtain ⟨h1, h2, h3⟩ := ih
    rename_i stp countsp k st'
    unfold add_document at hadd
    rcases hct : chunk_text cfgSize cfgOverlap text none none with _ | cs
    · rw [hct] at hadd
      cases hadd
    · rw [hct] at hadd
      cases cs with
      | nil =>
        simp only [List.isEmpty_nil, if_true] at hadd
        have hinj := Option.some.inj hadd
        have hst : stp = st' := congrArg Prod.snd hinj
        subst hst
        refine ⟨h1, h2, ?_⟩
        have hk : (0 : Nat) = k := by
          have := congrArg Prod.fst hinj
          simpa using this
        rw [h3, ← hk]
        simp
      | cons c cs =>
        simp only [List.isEmpty_cons, Bool.false_eq_true, if_false] at hadd
        rcases hemb : embed (c :: cs) with e | bs <;> rw [hemb] at hadd
        · exfalso
          exact Except.noConfusion (congrArg Prod.fst (Option.some.inj hadd))
        · cases upsertRes with
          | error e =>
            exfalso
            exact Except.noConfusion (congrArg Prod.fst (Option.some.inj hadd))
          | ok u =>
            simp only [] at hadd
            have hinj := Option.some.inj hadd
            have hk : (c :: cs).length = k := by
              have := congrArg Prod.fst hinj
              simpa using this
            have hst : st' = ⟨stp.text_chunks_store ++ (c :: cs),
                upsertList stp.index
                  (vectorsToUpsert stp.text_chunks_store.length (c :: cs) bs)⟩ := by
              have := congrArg Prod.snd hinj
              exact this.symm
            subst hst
            have hlen : bs.length = (c :: cs).length := hembed (c :: cs) bs hemb
            set n := stp.text_chunks_store.length with hn
            -- ids currently in the index
            have hids : stp.index.map (fun e => e.1) = (List.range n).map mkId := by
              have := congrArg (List.map Prod.fst) h1
              simp only [List.map_map] at this
              rw [show (Prod.fst ∘ fun (e : Entry α) => (e.1, e.2.2)) = fun e => e.1
                from rfl] at this
              rw [show (Prod.fst ∘ fun (p : Nat × String) => (mkId p.1, p.2))
                  = fun p => mkId p.1 from rfl] at this
              rw [this]
              rw [show (fun (p : Nat × String) => mkId p.1)
                  = mkId ∘ Prod.fst from rfl]
              rw [← List.map_map, List.enum_map_fst]
            have hveq := vectorsToUpsert_eq (c :: cs) bs n
            have hvids := vectorsRec_ids (c :: cs) bs n hlen
            -- the batch appends: its ids are fresh and pairwise distinct
            have happend : upsertList stp.index (vectorsToUpsert n (c :: cs) bs)
                = stp.index ++ vectorsRec n (c :: cs) bs := by
              rw [hveq]
              apply upsertList_fresh
              · intro v hv e he
                have hv1 : v.1 ∈ (List.range' n (c :: cs).length).map mkId := by
                  rw [← hvids]
                  exact List.mem_map_of_mem (fun w => w.1) hv
                have he1 : e.1 ∈ (List.range n).map mkId := by
                  rw [← hids]
                  exact List.mem_map_of_mem (fun w => w.1) he
                obtain ⟨j, hj, hje⟩ := List.mem_map.mp he1
                obtain ⟨i, hi, hie⟩ := List.mem_map.mp hv1
                rw [← hje, ← hie]
                intro hc
                have := mkId_inj hc
                have hjn := List.mem_range.mp hj
                have hin := (List.mem_range'_1.mp hi).1
                omega
              · rw [hvids]
                exact List.Nodup.map mkId_injective (List.nodup_range' n (c :: cs).length)
            refine ⟨?_, ?_, ?_⟩
            · show (upsertList stp.index (vectorsToUpsert n (c :: cs) bs)).map
                  (fun e => (e.1, e.2.2))
                = (stp.text_chunks_store ++ (c :: cs)).enum.map
                  (fun p => (mkId p.1, p.2))
              rw [happend, List.map_append, h1,
                vectorsRec_idtext (c :: cs) bs n hlen, List.enum_append,
                List.map_append]
            · show (upsertList stp.index (vectorsToUpsert n (c :: cs) bs)).length
                = (stp.text_chunks_store ++ (c :: cs)).length
              rw [happend, List.length_append, List.length_append, h2,
                vectorsRec_length (c :: cs) bs n hlen]
            · show (stp.text_chunks_store ++ (c :: cs)).length
                = (countsp ++ [k]).sum
              rw [List.length_append,
                show (countsp ++ [k]).sum = countsp.sum + k by simp]
              omega

/-! ### Claims about the query pipeline -/

/-- Claim C7: with an empty `text_chunks_store`, `get_answer` returns the
structured error result, whatever the outcomes of the embedding service, the
vector-index query and the completion service would be (none of them is
consulted), and never throws. -/
theorem c7_empty_corpus_guard {α : Type} (st : RAGState α) (question : String)
    (image_b64 image_mime_type : Option String)
    (embedQ : Except ServiceErr Unit)
    (search : Except ServiceErr (List (Option String)))
    (completion : List ContentPart → Except ServiceErr String)
    (h0 : st.text_chunks_store.length = 0) :
    get_answer st question image_b64 image_mime_type embedQ search completion
      = QAResult.err "No documents processed yet. Please upload a document first." := by
  unfold get_answer
  rw [h0]
  simp

/-- Claim C8: `get_answer` always returns one of the two well-formed shapes:
on success `QAResult.ok` with the question and the retrieved chunks verbatim
in retrieval order and the completion answer, otherwise `QAResult.err`; in
particular a completion-service failure is converted into the error shape
(never an uncaught exception). -/
theorem c8_result_shape {α : Type} (st : RAGState α) (question : String)
    (image_b64 image_mime_type : Option String)
    (embedQ : Except ServiceErr Unit)
    (search : Except ServiceErr (List (Option String)))
    (completion : List ContentPart → Except ServiceErr String) :
    ((∃ msg, get_answer st question image_b64 image_mime_type embedQ search completion
        = QAResult.err msg)
      ∨ (∃ answer found, search = Except.ok found
          ∧ completion (buildContent
              (String.intercalate "\n\n---\n\n" (found.filterMap id)) question
              image_b64 image_mime_type) = Except.ok answer
          ∧ get_answer st question image_b64 image_mime_type embedQ search completion
            = QAResult.ok question answer (found.filterMap id)))
    ∧ ∀ found e, st.text_chunks_store.length ≠ 0 →
        search = Except.ok found →
        (found.filterMap id).isEmpty = false →
        embedQ = Except.ok () →
        completion (buildContent
            (String.intercalate "\n\n---\n\n" (found.filterMap id)) question
            image_b64 image_mime_type) = Except.error e →
        get_answer st question image_b64 image_mime_type embedQ search completion
          = QAResult.err (handleErr e) := by
  constructor
  · unfold get_answer
    by_cases h0 : st.text_chunks_store.length = 0
    · rw [if_pos h0]
      exact Or.inl ⟨_, rfl⟩
    · rw [if_neg h0]
      cases embedQ with
      | error e => exact Or.inl ⟨_, rfl⟩
      | ok _ =>
        cases hs : search with
        | error e => exact Or.inl ⟨_, rfl⟩
        | ok found =>
          by_cases hemp : (found.filterMap id).isEmpty
          · exact Or.inl ⟨"No relevant information found in documents",
              by simp only [hemp, if_true]⟩
          · rw [Bool.not_eq_true] at hemp
            cases hc : completion (buildContent
                (String.intercalate "\n\n---\n\n" (found.filterMap id)) question
                image_b64 image_mime_type) with
            | error e =>
              exact Or.inl ⟨handleErr e,
                by simp only [hemp, Bool.false_eq_true, if_false, hc]⟩
            | ok answer =>
              exact Or.inr ⟨answer, found, rfl, hc,
                by simp only [hemp, Bool.false_eq_true, if_false, hc]⟩
  · intro found e h0 hs hemp hq hc
    subst hs
    subst hq
    unfold get_answer
    simp only [if_neg h0, hemp, Bool.false_eq_true, if_false, hc]

/-- The composed prompt for the two-chunk scenario contains the first chunk
text. -/
theorem prompt_contains_alpha (q : String) :
    containsStr (userText (String.intercalate "\n\n---\n\n" ["alpha", "bravo"]) q)
      "alpha" := by
  refine ⟨"Based on the following context from documents, please answer the question.\n\nContext:\n---\n",
    "\n\n---\n\nbravo" ++ "\n---\n\nQuestion: " ++ q, ?_⟩
  show userText (String.intercalate "\n\n---\n\n" ["alpha", "bravo"]) q = _
  unfold userText
  rw [show String.intercalate "\n\n---\n\n" ["alpha", "bravo"]
      = "alpha\n\n---\n\nbravo" by rfl]
  rw [show ("Based on the following context from documents, please answer the question.\n\nContext:\n---\n"
        ++ "alpha\n\n---\n\nbravo" ++ "\n---\n\nQuestion: " : String)
      = "Based on the following context from documents, please answer the question.\n\nContext:\n---\n"
        ++ "alpha" ++ ("\n\n---\n\nbravo" ++ "\n---\n\nQuestion: ") by rfl]
  rw [String.append_assoc]

/-- The composed prompt for the two-chunk scenario contains the second chunk
text. -/
theorem prompt_contains_bravo (q : String) :
    containsStr (userText (String.intercalate "\n\n---\n\n" ["alpha", "bravo"]) q)
      "bravo" := by
  refine ⟨"Based on the following context from documents, please answer the question.\n\nContext:\n---\nalpha\n\n---\n\n",
    "\n---\n\nQuestion: " ++ q, ?_⟩
  show userText (String.intercalate "\n\n---\n\n" ["alpha", "bravo"]) q = _
  unfold userText
  rw [show String.intercalate "\n\n---\n\n" ["alpha", "bravo"]
      = "alpha\n\n---\n\nbravo" by rfl]
  rw [show ("Based on the following context from documents, please answer the question.\n\nContext:\n---\n"
        ++ "alpha\n\n---\n\nbravo" ++ "\n---\n\nQuestion: " : String)
      = "Based on the following context from documents, please answer the question.\n\nContext:\n---\nalpha\n\n---\n\n"
        ++ "bravo" ++ "\n---\n\nQuestion: " by rfl]
  rw [String.append_assoc]

/-- Claim C9: the index query returns exactly `min(k, corpus_size)` ranked
matches, the pipeline keeps them verbatim in ranking order (a corpus smaller
than `top_k` is a silent clamp, not an error).  Concretely, with 2 stored
chunks and `top_k = 5`, `get_answer` succeeds with exactly the 2 chunks as
context and the composed prompt contains both chunk texts. -/
theorem c9_retrieval_clamp {α : Type} (st : RAGState α)
    (ranked : List (Entry α)) (k : Nat) (question answer : String)
    (completion : List ContentPart → Except ServiceErr String)
    (hperm : List.Perm ranked st.index)
    (hcount : st.index.length = st.text_chunks_store.length)
    (hne : st.text_chunks_store.length ≠ 0) (hk : 0 < k)
    (hcomp : completion (buildContent
        (String.intercalate "\n\n---\n\n" ((ranked.take k).map (fun e => e.2.2)))
        question none none) = Except.ok answer) :
    ((indexQuery ranked k).filterMap id = (ranked.take k).map (fun e => e.2.2)
      ∧ ((indexQuery ranked k).filterMap id).length = min k st.text_chunks_store.length)
    ∧ get_answer st question none none (Except.ok ())
        (Except.ok (indexQuery ranked k)) completion
      = QAResult.ok question answer ((ranked.take k).map (fun e => e.2.2))
    ∧ get_answer (RAGState.mk (α := Nat) ["alpha", "bravo"]
          [("chunk_0", 0, "alpha"), ("chunk_1", 1, "bravo")]) question none none
        (Except.ok ())
        (Except.ok (indexQuery [("chunk_0", (0 : Nat), "alpha"),
          ("chunk_1", 1, "bravo")] 5))
        (fun _ => Except.ok answer)
      = QAResult.ok question answer ["alpha", "bravo"]
    ∧ containsStr (userText (String.intercalate "\n\n---\n\n" ["alpha", "bravo"])
        question) "alpha"
    ∧ containsStr (userText (String.intercalate "\n\n---\n\n" ["alpha", "bravo"])
        question) "bravo" := by
  have hfm : (indexQuery ranked k).filterMap id = (ranked.take k).map (fun e => e.2.2) := by
    unfold indexQuery
    rw [List.filterMap_map]
    exact List.filterMap_eq_map _ ▸ rfl
  have hlen : ((indexQuery ranked k).filterMap id).length
      = min k st.text_chunks_store.length := by
    rw [hfm, List.length_map, List.length_take, hperm.length_eq, hcount]
  refine ⟨⟨hfm, hlen⟩, ?_, rfl, prompt_contains_alpha question,
    prompt_contains_bravo question⟩
  unfold get_answer
  rw [if_neg hne]
  have hemp : ((indexQuery ranked k).filterMap id).isEmpty = false := by
    rw [List.isEmpty_eq_false_iff_exists_mem]
    have hpos : 0 < ((indexQuery ranked k).filterMap id).length := by
      rw [hlen]
      omega
    exact List.exists_mem_of_length_pos hpos
  rw [hfm] at hemp
  simp only [hemp, Bool.false_eq_true, if_false, hfm, hcomp]

/-! ### Witnesses: each hypothesis-bearing claim theorem applied at a
concrete input -/

theorem c1_witness :
    (RAGState.mk ["hi"] [("chunk_0", (0 : Nat), "hi")]).index.map (fun e => (e.1, e.2.2))
        = (RAGState.mk ["hi"] [("chunk_0", (0 : Nat), "hi")]).text_chunks_store.enum.map
          (fun p => (mkId p.1, p.2))
    ∧ (RAGState.mk ["hi"] [("chunk_0", (0 : Nat), "hi")]).index.length
        = (RAGState.mk ["hi"] [("chunk_0", (0 : Nat), "hi")]).text_chunks_store.length
    ∧ (RAGState.mk ["hi"] [("chunk_0", (0 : Nat), "hi")]).text_chunks_store.length
        = ([1] : List Nat).sum :=
  c1_store_index_consistency
    (show Reaches 5 0 (RAGState.mk ["hi"] [("chunk_0", (0 : Nat), "hi")]) ([] ++ [1]) from
      Reaches.step (fun ts => Except.ok (ts.map (fun _ => (0 : Nat)))) (Except.ok ()) "hi"
        Reaches.init
        (fun ts vs h => by
          injection h with h
          rw [← h, List.length_map])
        (by rfl))

theorem c3_witness :
    (isBlank "hello" = true →
      chunk_text ((3 : Nat) : Int) ((1 : Nat) : Int) "hello" none none = some [])
    ∧ (isBlank "hello" = false →
        ∀ L, chunk_text ((3 : Nat) : Int) ((1 : Nat) : Int) "hello" none none = some L →
          ∀ i ch, "hello".toList.get? i = some ch → ∃ c ∈ L, ch ∈ c.toList) :=
  c3_chunk_coverage "hello" 3 1 (by norm_num) (by norm_num)

theorem c4_witness :
    (∃ N, chunk_text ((3 : Nat) : Int) ((1 : Nat) : Int) "hello" none none
        = some ((List.range N).map
            (fun i => pySlice "hello" ((i * (3 - 1) : Nat) : Int)
              ((i * (3 - 1) + 3 : Nat) : Int)))
      ∧ ∀ i, i < N ↔ i * (3 - 1) < ("hello" : String).length)
    ∧ chunk_text 1000 200 text2400 none none
        = some [pySlice text2400 0 1000, pySlice text2400 800 1800,
            pySlice text2400 1600 2600]
    ∧ [(pySlice text2400 0 1000).length, (pySlice text2400 800 1800).length,
        (pySlice text2400 1600 2600).length] = [1000, 1000, 800] :=
  c4_windows "hello" 3 1 (by norm_num) (by norm_num) rfl

theorem c5_witness :
    add_document ((3 : Nat) : Int) ((1 : Nat) : Int)
      (fun _ => Except.error (ServiceErr.api "boom")) (Except.ok ())
      (RAGState.mk (α := Nat) [] []) "hello"
      = some (Except.error (ServiceErr.api "boom"), RAGState.mk [] []) :=
  c5_embed_failure_atomic 3 1 (fun _ => Except.error (ServiceErr.api "boom"))
    (Except.ok ()) (RAGState.mk [] []) "hello" (ServiceErr.api "boom")
    (by norm_num) (by norm_num) rfl (fun _ => rfl)

theorem c6_witness :
    add_document 1000 200 (fun _ => Except.ok ([] : List Nat)) (Except.ok ())
      (RAGState.mk ["old"] [("chunk_0", 0, "old")]) ""
      = some (Except.ok 0, RAGState.mk ["old"] [("chunk_0", 0, "old")]) :=
  c6_blank_input_noop 1000 200 (fun _ => Except.ok ([] : List Nat)) (Except.ok ())
    (RAGState.mk ["old"] [("chunk_0", 0, "old")]) "" rfl

theorem c7_witness :
    get_answer (RAGState.mk (α := Nat) [] []) "any question" none none
      (Except.ok ()) (Except.ok [some "x"]) (fun _ => Except.ok "an answer")
      = QAResult.err "No documents processed yet. Please upload a document first." :=
  c7_empty_corpus_guard (RAGState.mk [] []) "any question" none none
    (Except.ok ()) (Except.ok [some "x"]) (fun _ => Except.ok "an answer") rfl

theorem c8_witness :
    get_answer (RAGState.mk (α := Nat) ["alpha"] [("chunk_0", 0, "alpha")]) "q"
      none none (Except.ok ()) (Except.ok [some "alpha"])
      (fun _ => Except.error (ServiceErr.api "quota"))
      = QAResult.err (handleErr (ServiceErr.api "quota")) :=
  (c8_result_shape (RAGState.mk ["alpha"] [("chunk_0", 0, "alpha")]) "q" none none
      (Except.ok ()) (Except.ok [some "alpha"])
      (fun _ => Except.error (ServiceErr.api "quota"))).2
    [some "alpha"] (ServiceErr.api "quota") (by norm_num) rfl rfl rfl rfl

theorem c9_witness :
    ((indexQuery [("chunk_0", (0 : Nat), "alpha"), ("chunk_1", 1, "bravo")] 5).filterMap
        id).length
      = min 5 (RAGState.mk (α := Nat) ["alpha", "bravo"]
          [("chunk_0", 0, "alpha"), ("chunk_1", 1, "bravo")]).text_chunks_store.length
    ∧ get_answer (RAGState.mk (α := Nat) ["alpha", "bravo"]
          [("chunk_0", 0, "alpha"), ("chunk_1", 1, "bravo")]) "q" none none
        (Except.ok ())
        (Except.ok (indexQuery [("chunk_0", (0 : Nat), "alpha"),
          ("chunk_1", 1, "bravo")] 5))
        (fun _ => Except.ok "ANS")
      = QAResult.ok "q" "ANS" ["alpha", "bravo"]
    ∧ containsStr (userText (String.intercalate "\n\n---\n\n" ["alpha", "bravo"]) "q")
        "alpha"
    ∧ containsStr (userText (String.intercalate "\n\n---\n\n" ["alpha", "bravo"]) "q")
        "bravo" := by
  have h := c9_retrieval_clamp
    (RAGState.mk (α := Nat) ["alpha", "bravo"]
      [("chunk_0", 0, "alpha"), ("chunk_1", 1, "bravo")])
    [("chunk_0", (0 : Nat), "alpha"), ("chunk_1", 1, "bravo")] 5 "q" "ANS"
    (fun _ => Except.ok "ANS") (List.Perm.refl _) rfl (by norm_num) (by norm_num) rfl
  exact ⟨h.1.2, h.2.2.1, h.2.2.2.1, h.2.2.2.2⟩

theorem c10_witness :
    orDefault (some 0) 200 ≠ 0
    ∧ chunk_text 1000 200 "xy" (some 0) none = chunk_text 1000 200 "xy" none none :=
  ⟨(c10_truthiness_default 1000 200).2.2 (by norm_num) (some 0),
    (c10_truthiness_default 1000 200).1 "xy" none⟩

end RAG
